import Mathlib

/-!
Verification of the EDA analysis engine of `eda-cli` against its
natural-language specification.

The repository ships the command-line surface (`src/eda_cli/cli.py`) and the
test suite (`tests/test_core.py`); the analysis engine itself
(`src/eda_cli/core.py`, imported by both) is not among the staged source
files.  The engine is therefore modelled here from the specification: every
definition whose doc comment starts with `Modelled from the spec:` is a
faithful transcription of the spec's words (sections 3, 4, 6, 8 and 9),
cross-checked against the expectations recorded in `tests/test_core.py`.
The `report` command of `cli.py` is embedded from the source file itself.
-/

/- The library marks rational arithmetic `@[irreducible]`; concrete instances
of the theorems below evaluate rational arithmetic by `decide`, which needs
these definitions unfolded.  The change is local to this file and does not
affect soundness: proofs are still checked by the kernel. -/
set_option allowUnsafeReducibility true
attribute [local semireducible] Rat.add Rat.mul Rat.sub Rat.inv Rat.ofScientific

namespace EdaCli

/-- Modelled from the spec: the inferred storage type tag of a column
(spec §3, §9: "a numeric/non-numeric split", "an explicit tagged variant
{Numeric, NonNumeric} decided once at load time"). -/
inductive Dtype where
  | numeric
  | nonNumeric
  deriving DecidableEq

/-- Modelled from the spec: a cell value is numeric or text (spec §3: each
column holds "values of a single inferred type (numeric or
non-numeric/categorical-text)").  Numbers are modelled as rationals. -/
inductive Val where
  | num (q : ℚ)
  | str (s : String)
  deriving DecidableEq

/-- Modelled from the spec: one named, typed column; a cell may be missing
(spec §3, §9: "an optional/nullable wrapper per cell"). -/
structure Col where
  name : String
  dtype : Dtype
  cells : List (Option Val)
  deriving DecidableEq

/-- Modelled from the spec: a Dataset is an ordered sequence of named columns
all sharing the same row count `n_rows` (spec §3). -/
structure Dataset where
  nRows : Nat
  cols : List Col
  deriving DecidableEq

/-- A structurally well-formed dataset: every column has exactly `nRows`
cells, and column names are unique within the dataset (spec §3: "all columns
sharing the same row count", "`name` (string, unique within dataset)"). -/
def Dataset.WellFormed (ds : Dataset) : Prop :=
  (∀ c ∈ ds.cols, c.cells.length = ds.nRows) ∧ (ds.cols.map Col.name).Nodup

instance : DecidablePred Dataset.WellFormed := fun ds => by
  unfold Dataset.WellFormed
  infer_instance

/-- The non-missing cell values of a column, in row order. -/
def presentVals (c : Col) : List Val :=
  c.cells.filterMap id

/-- Number of non-missing cells of a column. -/
def nonNullCount (c : Col) : Nat :=
  c.cells.countP (fun o => o.isSome)

/-- Order-preserving deduplication: keeps the first occurrence of each value,
skipping values already in `seen`. -/
def dedupFO {α : Type _} [DecidableEq α] : List α → List α → List α
  | _, [] => []
  | seen, a :: l => if a ∈ seen then dedupFO seen l else a :: dedupFO (a :: seen) l

/-- The distinct non-missing values of a column, in first-occurrence order. -/
def distinctVals (c : Col) : List Val :=
  dedupFO [] (presentVals c)

/-- Count of distinct non-missing values of a column (spec glossary:
"Cardinality: count of distinct non-missing values in a column"). -/
def distinctCount (c : Col) : Nat :=
  (distinctVals c).length

/-- Numeric reading of a cell value (only ever applied to cells of numeric
columns; a stray text cell reads as 0). -/
def valToNum : Val → ℚ
  | .num q => q
  | .str _ => 0

/-- Minimum of two rationals, as an executable conditional. -/
def minQ (a b : ℚ) : ℚ := if a ≤ b then a else b

/-- Maximum of two rationals, as an executable conditional. -/
def maxQ (a b : ℚ) : ℚ := if a ≤ b then b else a

/-- Minimum of a list of rationals, `none` when empty. -/
def listMinQ : List ℚ → Option ℚ
  | [] => none
  | x :: xs => some (xs.foldl minQ x)

/-- Maximum of a list of rationals, `none` when empty. -/
def listMaxQ : List ℚ → Option ℚ
  | [] => none
  | x :: xs => some (xs.foldl maxQ x)

/-- Clamp a rational into the unit interval. -/
def clamp01 (q : ℚ) : ℚ := if q ≤ 0 then 0 else if 1 ≤ q then 1 else q

/-- Division of a rational by a natural number, phrased through `Rat.divInt`
so that it evaluates by kernel reduction (the library's `Rat.inv` is
irreducible); 0 when `n = 0`. -/
def qdivNat (a : ℚ) (n : Nat) : ℚ := Rat.divInt a.num (a.den * n)

/-- Division of two rationals, phrased through `Rat.divInt` so that it
evaluates by kernel reduction; 0 when `b = 0`. -/
def qdiv (a b : ℚ) : ℚ := Rat.divInt (a.num * b.den) (a.den * b.num)

/-- Absolute value of a rational, as an executable conditional. -/
def qabs (q : ℚ) : ℚ := if q < 0 then -q else q

/-- Arithmetic mean of a list of rationals, `none` when empty. -/
def meanQ : List ℚ → Option ℚ
  | [] => none
  | x :: xs => some (qdivNat (x :: xs).sum (x :: xs).length)

/-- Sample variance (the square of the sample standard deviation), `none`
when fewer than two observations (spec §4.1: "std requires non_null ≥ 2,
else reported as undefined (not zero)"). -/
def sampleVarQ (l : List ℚ) : Option ℚ :=
  if l.length < 2 then none
  else some (qdivNat ((l.map fun x => x * x).sum - qdivNat (l.sum * l.sum) l.length)
    (l.length - 1))

/-- Modelled from the spec: the per-column summary record (spec §3
"ColumnSummary").  The standard deviation of a list of rationals is
irrational in general, so the `std` field carries the sample variance — the
square of the sample standard deviation, defined exactly when the standard
deviation is (`non_null ≥ 2`); every property stated below about `std`
concerns only whether it is defined. -/
structure ColumnSummary where
  name : String
  dtype : Dtype
  non_null : Nat
  missing : Nat
  missing_share : ℚ
  unique : Nat
  is_numeric : Bool
  min : Option ℚ
  max : Option ℚ
  mean : Option ℚ
  std : Option ℚ
  deriving DecidableEq

/-- Modelled from the spec: ColumnProfiler (spec §4.1).  `missing` is
`n_rows − non_null`, `missing_share` is `missing / n_rows` (0 when
`n_rows = 0`); the four numeric statistics are absent on non-numeric
columns, and degenerate (absent) on empty numeric data. -/
def profileColumn (nRows : Nat) (c : Col) : ColumnSummary :=
  let nn := nonNullCount c
  let nums := (presentVals c).map valToNum
  { name := c.name
    dtype := c.dtype
    non_null := nn
    missing := nRows - nn
    missing_share := mkRat ((nRows - nn : Nat) : Int) nRows
    unique := distinctCount c
    is_numeric := c.dtype == Dtype.numeric
    min := if c.dtype == Dtype.numeric then listMinQ nums else none
    max := if c.dtype == Dtype.numeric then listMaxQ nums else none
    mean := if c.dtype == Dtype.numeric then meanQ nums else none
    std := if c.dtype == Dtype.numeric then sampleVarQ nums else none }

/-- Modelled from the spec: the dataset-level summary (spec §3
"DatasetSummary"). -/
structure DatasetSummary where
  n_rows : Nat
  n_cols : Nat
  columns : List ColumnSummary
  deriving DecidableEq

/-- Modelled from the spec: `summarize_dataset` (spec §4.2, §6) applies the
column profiler to every column in order; `n_rows`/`n_cols` are read from
the dataset shape. -/
def summarize_dataset (ds : Dataset) : DatasetSummary :=
  { n_rows := ds.nRows
    n_cols := ds.cols.length
    columns := ds.cols.map (profileColumn ds.nRows) }

/-- Modelled from the spec: one row of the MissingTable (spec §3). -/
structure MissingEntry where
  name : String
  missing_count : Nat
  missing_share : ℚ
  deriving DecidableEq

/-- Modelled from the spec: `missing_table` (spec §4.3) with the documented
inclusion policy "this implementation includes all columns" (spec §3):
one entry per dataset column, in dataset column order; `missing_count` is
the number of missing cells, `missing_share` is `missing_count / n_rows`
(0 when `n_rows = 0`, not a division error). -/
def missing_table (ds : Dataset) : List MissingEntry :=
  ds.cols.map fun c =>
    { name := c.name
      missing_count := c.cells.countP (fun o => o.isNone)
      missing_share := mkRat ((c.cells.countP (fun o => o.isNone) : Nat) : Int) ds.nRows }

/-- Modelled from the spec: the square table of pairwise correlations
among numeric columns (spec §3 "CorrelationMatrix"): `names` are the numeric
column names in dataset order, `entries i j` the cell for the i-th and j-th
numeric columns (`none` = undefined cell). -/
structure CorrMatrix where
  names : List String
  entries : List (List (Option ℚ))
  deriving DecidableEq

/-- The numeric columns of a dataset, in dataset order. -/
def numericCols (ds : Dataset) : List Col :=
  ds.cols.filter fun c => c.dtype == Dtype.numeric

/-- The rows where both columns are non-missing, as pairs of numeric values
(spec §4.4: "pairwise-complete-observations policy"). -/
def pairedRows (xs ys : List (Option Val)) : List (ℚ × ℚ) :=
  (xs.zip ys).filterMap fun p =>
    match p with
    | (some a, some b) => some (valToNum a, valToNum b)
    | _ => none

/-- `n·cov`-style numerator of the Pearson formula over the paired rows:
`Σ xᵢyᵢ − (Σ xᵢ)(Σ yᵢ)/n`. -/
def covSum (p : List (ℚ × ℚ)) : ℚ :=
  (p.map fun q => q.1 * q.2).sum -
    qdivNat ((p.map Prod.fst).sum * (p.map Prod.snd).sum) p.length

/-- Variance numerator of the first coordinates over the paired rows:
`Σ xᵢ² − (Σ xᵢ)²/n`. -/
def varSumFst (p : List (ℚ × ℚ)) : ℚ :=
  (p.map fun q => q.1 * q.1).sum -
    qdivNat ((p.map Prod.fst).sum * (p.map Prod.fst).sum) p.length

/-- Variance numerator of the second coordinates over the paired rows:
`Σ yᵢ² − (Σ yᵢ)²/n`. -/
def varSumSnd (p : List (ℚ × ℚ)) : ℚ :=
  (p.map fun q => q.2 * q.2).sum -
    qdivNat ((p.map Prod.snd).sum * (p.map Prod.snd).sum) p.length

/-- Modelled from the spec: the off-diagonal correlation cell of two columns
(spec §4.4).  The Pearson coefficient `r = cov / √(varₓ · var_y)` is
irrational in general, so the cell carries the equivalent rational encoding
`cov · |cov| / (varₓ · var_y)` (the sign-carrying square of `r`, from which
`r` is recovered uniquely); the cell is `none` (undefined) when fewer than 2
complete pairs exist or when either variance vanishes. -/
def pearsonCell (xs ys : List (Option Val)) : Option ℚ :=
  if (pairedRows xs ys).length < 2 ∨ varSumFst (pairedRows xs ys) = 0 ∨
      varSumSnd (pairedRows xs ys) = 0 then none
  else some (qdiv (covSum (pairedRows xs ys) * qabs (covSum (pairedRows xs ys)))
    (varSumFst (pairedRows xs ys) * varSumSnd (pairedRows xs ys)))

/-- The placeholder column used for out-of-range indexing. -/
def emptyCol : Col := ⟨"", Dtype.nonNumeric, []⟩

/-- One cell of the correlation matrix, by index into the numeric columns
(spec §4.4: "self-correlation is exactly 1.0 when the column has ≥2
non-missing values, undefined otherwise"). -/
def corrCell (cs : List Col) (i j : Nat) : Option ℚ :=
  if i = j then
    (if 2 ≤ nonNullCount (cs.getD i emptyCol) then some 1 else none)
  else pearsonCell (cs.getD i emptyCol).cells (cs.getD j emptyCol).cells

/-- Modelled from the spec: `correlation_matrix` (spec §4.4, §6): restricted
to numeric columns, empty when fewer than 2 numeric columns exist. -/
def correlation_matrix (ds : Dataset) : CorrMatrix :=
  let cs := numericCols ds
  if cs.length < 2 then ⟨[], []⟩
  else
    ⟨cs.map Col.name,
      (List.range cs.length).map fun i =>
        (List.range cs.length).map fun j => corrCell cs i j⟩

/-- Cell access into a correlation matrix; out-of-range reads are `none`. -/
def CorrMatrix.cell (m : CorrMatrix) (i j : Nat) : Option ℚ :=
  (m.entries.getD i []).getD j none

/-- Index in a column of the first cell holding the value `v` (the length of
the column when `v` never occurs). -/
def firstIdx : List (Option Val) → Val → Nat
  | [], _ => 0
  | o :: l, v => if o = some v then 0 else firstIdx l v + 1

/-- The ordering used to rank category entries: count descending, ties
broken by first-occurrence position in the source column (spec §3, §4.5). -/
def catRel (cells : List (Option Val)) (a b : Val × Nat) : Prop :=
  b.2 < a.2 ∨ (a.2 = b.2 ∧ firstIdx cells a.1 ≤ firstIdx cells b.1)

instance (cells : List (Option Val)) : DecidableRel (catRel cells) := fun a b => by
  unfold catRel
  infer_instance

instance (cells : List (Option Val)) : IsTotal (Val × Nat) (catRel cells) := by
  constructor
  intro a b
  unfold catRel
  rcases Nat.lt_trichotomy a.2 b.2 with h | h | h
  · exact Or.inr (Or.inl h)
  · rcases Nat.le_total (firstIdx cells a.1) (firstIdx cells b.1) with h' | h'
    · exact Or.inl (Or.inr ⟨h, h'⟩)
    · exact Or.inr (Or.inr ⟨h.symm, h'⟩)
  · exact Or.inl (Or.inl h)

instance (cells : List (Option Val)) : IsTrans (Val × Nat) (catRel cells) := by
  constructor
  intro a b c hab hbc
  unfold catRel at *
  rcases hab with h1 | ⟨h1, h1'⟩ <;> rcases hbc with h2 | ⟨h2, h2'⟩
  · exact Or.inl (h2.trans h1)
  · exact Or.inl (h2 ▸ h1)
  · exact Or.inl (lt_of_lt_of_eq h2 h1.symm)
  · exact Or.inr ⟨h1.trans h2, h1'.trans h2'⟩

/-- The distinct non-missing values of a column with their occurrence
counts, in first-occurrence order. -/
def catCounts (c : Col) : List (Val × Nat) :=
  (distinctVals c).map fun v => (v, (presentVals c).count v)

/-- The category entries of a column, sorted by count descending with ties
broken by first-occurrence order. -/
def sortedCats (c : Col) : List (Val × Nat) :=
  List.insertionSort (catRel c.cells) (catCounts c)

/-- Modelled from the spec: the default number of eligible non-numeric
columns `top_categories` processes when `max_columns` is not given. -/
def defaultMaxColumns : Nat := 20

/-- Modelled from the spec: the default number of entries per column when
`top_k` is not given (the report narrative announces "top-5" while calling
`top_categories(df)` with no arguments, `cli.py` lines 126 and 209). -/
def defaultTopK : Nat := 5

/-- Modelled from the spec: `top_categories` (spec §4.5, §6): processes the
first `max_columns` non-numeric columns in dataset order; for each, counts
the occurrences of each distinct non-missing value, sorts descending by
count with ties broken by first-occurrence order, and truncates to `top_k`
entries.  Missing values are excluded from counts. -/
def top_categories (ds : Dataset)
    (max_columns : Nat := defaultMaxColumns) (top_k : Nat := defaultTopK) :
    List (String × List (Val × Nat)) :=
  ((ds.cols.filter fun c => c.dtype == Dtype.nonNumeric).take max_columns).map
    fun c => (c.name, (sortedCats c).take top_k)

/-- Lower-cased character list of a string, for case-insensitive matching. -/
def toLowerChars (s : String) : List Char :=
  s.toList.map Char.toLower

/-- Whether the first list is an initial segment of the second. -/
def headMatch : List Char → List Char → Bool
  | [], _ => true
  | _ :: _, [] => false
  | a :: as, b :: bs => a == b && headMatch as bs

/-- Whether `needle` occurs as a contiguous sublist of `hay`. -/
def containsSub (needle : List Char) : List Char → Bool
  | [] => needle.isEmpty
  | c :: rest => headMatch needle (c :: rest) || containsSub needle rest

/-- Modelled from the spec: a column name matches the identifier-like
pattern when the pattern occurs in it case-insensitively (spec §4.6:
"`id_name_pattern` (substring/regex marking a column name as
identifier-like, default case-insensitive match on \x22id\x22)"). -/
def idLike (pat : String) (nm : String) : Bool :=
  containsSub (toLowerChars pat) (toLowerChars nm)

/-- Modelled from the spec: the threshold configuration of
`compute_quality_flags` (spec §4.6, §9).  Defaults: `high_cardinality_threshold`
is 50 and `id_name_pattern` is "id" (spec §4.6), `max_missing_share_overall`
is 0.3 (spec §9 "missing-share=0.3"); `min_rows` and `max_cols` are not
pinned by the spec and are chosen so that the empty dataset yields all-false
flags under the defaults (spec §4.6: "degenerate inputs (empty dataset)
yield all flags false"). -/
structure QualityConfig where
  min_rows : Nat := 0
  max_cols : Nat := 100
  max_missing_share_overall : ℚ := mkRat 3 10
  high_cardinality_threshold : Nat := 50
  id_name_pattern : String := "id"
  deriving DecidableEq

/-- Modelled from the spec: one suspicious-identifier record (spec §3, §4.6). -/
structure SuspiciousId where
  column : String
  description : String
  duplicate_ratio : ℚ
  deriving DecidableEq

/-- Modelled from the spec: the quality-flag record (spec §3 "QualityFlags"). -/
structure QualityFlags where
  quality_score : ℚ
  max_missing_share : ℚ
  too_few_rows : Bool
  too_many_columns : Bool
  too_many_missing : Bool
  has_constant_columns : Bool
  constant_columns : List String
  n_constant_columns : Nat
  has_high_cardinality_categoricals : Bool
  high_cardinality_columns : List String
  n_high_cardinality_columns : Nat
  has_suspicious_id_duplicates : Bool
  suspicious_id_columns : List SuspiciousId
  deriving DecidableEq

/-- Modelled from the spec: the aggregate quality score (spec §4.6, §9).
The spec leaves the exact weighting open ("implementers may choose the exact
weighting but must document it and preserve the bound and monotonicity"); the
documented choice here is a clamped weighted penalty: each raised dataset-level
flag costs 1/5 and the maximal per-column missing share costs a further 2/5 of
its size, the result clamped into [0,1]. -/
def qualityScore (fewRows manyCols manyMissing : Bool) (mms : ℚ) : ℚ :=
  clamp01 (1 - (if fewRows then mkRat 1 5 else 0)
    - (if manyCols then mkRat 1 5 else 0)
    - (if manyMissing then mkRat 1 5 else 0)
    - mkRat 2 5 * mms)

/-- Maximum per-column missing share recorded in a missing table (0 when the
table is empty). -/
def maxMissingShare (mt : List MissingEntry) : ℚ :=
  (mt.map fun e => e.missing_share).foldr maxQ 0

/-- Modelled from the spec: `compute_quality_flags` (spec §4.6, §6):
dataset-level flags from the summary shape and the maximal missing share,
plus the three heuristics — constant columns (exactly 1 distinct non-missing
value among `non_null ≥ 1` rows, any dtype), high-cardinality categoricals
(non-numeric with `unique >` threshold), and suspicious identifier
duplicates (identifier-like name, `non_null ≥ 1`, `unique < non_null`, with
`duplicate_ratio = 1 − unique/non_null`). -/
def compute_quality_flags (summary : DatasetSummary) (mt : List MissingEntry)
    (cfg : QualityConfig := {}) : QualityFlags :=
  let mms := maxMissingShare mt
  let fewRows := decide (summary.n_rows < cfg.min_rows)
  let manyCols := decide (cfg.max_cols < summary.n_cols)
  let manyMissing := decide (cfg.max_missing_share_overall < mms)
  let constCols := (summary.columns.filter fun c =>
    decide (1 ≤ c.non_null ∧ c.unique = 1)).map ColumnSummary.name
  let hiCardCols := (summary.columns.filter fun c =>
    decide (c.is_numeric = false ∧ cfg.high_cardinality_threshold < c.unique)).map
    ColumnSummary.name
  let suspicious := summary.columns.filterMap fun c =>
    if idLike cfg.id_name_pattern c.name = true ∧ 1 ≤ c.non_null ∧
        c.unique < c.non_null then
      some { column := c.name
             description := "Колонка " ++ c.name
             duplicate_ratio := 1 - mkRat (c.unique : Int) c.non_null }
    else none
  { quality_score := qualityScore fewRows manyCols manyMissing mms
    max_missing_share := mms
    too_few_rows := fewRows
    too_many_columns := manyCols
    too_many_missing := manyMissing
    has_constant_columns := !constCols.isEmpty
    constant_columns := constCols
    n_constant_columns := constCols.length
    has_high_cardinality_categoricals := !hiCardCols.isEmpty
    high_cardinality_columns := hiCardCols
    n_high_cardinality_columns := hiCardCols.length
    has_suspicious_id_duplicates := !suspicious.isEmpty
    suspicious_id_columns := suspicious }

/-- The options of the `report` command that feed its computations
(`cli.py` lines 95–106), with the CLI defaults. -/
structure ReportOptions where
  max_hist_columns : Nat := 6
  top_k_categories : Nat := 5
  min_missing_share : ℚ := mkRat 3 10
  deriving DecidableEq

/-- One problematic-by-missingness column of the report
(`cli.py` lines 132–139). -/
structure ProblematicColumn where
  name : String
  missing_share : ℚ
  missing_count : Nat
  deriving DecidableEq

/-- The analysis artifacts the `report` command computes and persists
(`cli.py` lines 121–147). -/
structure ReportData where
  summary : DatasetSummary
  missing : List MissingEntry
  corr : CorrMatrix
  topCats : List (String × List (Val × Nat))
  flags : QualityFlags
  problematic : List ProblematicColumn
  deriving DecidableEq

/-- The computation phase of the `report` command (`cli.py` lines 121–147):
`summarize_dataset(df)`, `missing_table(df)`, `correlation_matrix(df)`,
`top_categories(df)` — called with no arguments — and
`compute_quality_flags(summary, missing_df)` — called with no configuration —
plus the list of columns whose missing share exceeds `min_missing_share`.
Of the three option values only `min_missing_share` is consulted;
`top_k_categories` and `max_hist_columns` appear only in the narrative text
and the chart layer. -/
def reportComputations (ds : Dataset) (opts : ReportOptions) : ReportData :=
  let summary := summarize_dataset ds
  let missing := missing_table ds
  { summary := summary
    missing := missing
    corr := correlation_matrix ds
    topCats := top_categories ds
    flags := compute_quality_flags summary missing
    problematic := (summary.columns.filter fun c =>
      decide (opts.min_missing_share < c.missing_share)).map fun c =>
      { name := c.name, missing_share := c.missing_share, missing_count := c.missing } }

/-- The pipeline the test suite and the CLI follow before calling
`compute_quality_flags`: quality flags of a dataset, computed from its
summary and its missing table (`tests/test_core.py`, `cli.py` line 129). -/
def qualityFlagsOf (ds : Dataset) (cfg : QualityConfig := {}) : QualityFlags :=
  compute_quality_flags (summarize_dataset ds) (missing_table ds) cfg

/-- The empty dataset: zero rows, zero columns. -/
def emptyDs : Dataset := ⟨0, []⟩

/-- The test suite's sample dataset
`{age:[10,20,30,None], height:[140,150,160,170], city:["A","B","A",None]}`
(`tests/test_core.py`, `_sample_df`). -/
def sampleDs : Dataset :=
  ⟨4, [⟨"age", Dtype.numeric,
        [some (Val.num 10), some (Val.num 20), some (Val.num 30), none]⟩,
       ⟨"height", Dtype.numeric,
        [some (Val.num 140), some (Val.num 150), some (Val.num 160), some (Val.num 170)]⟩,
       ⟨"city", Dtype.nonNumeric,
        [some (Val.str "A"), some (Val.str "B"), some (Val.str "A"), none]⟩]⟩

/-- The suspicious-identifier scenario `{user_id:[1,2,3,1,2], value:[10,20,30,40,50]}`
(spec §8; `tests/test_core.py`, `test_suspicious_id_duplicates`). -/
def duplicateIdDs : Dataset :=
  ⟨5, [⟨"user_id", Dtype.numeric,
        [some (Val.num 1), some (Val.num 2), some (Val.num 3), some (Val.num 1),
          some (Val.num 2)]⟩,
       ⟨"value", Dtype.numeric,
        [some (Val.num 10), some (Val.num 20), some (Val.num 30), some (Val.num 40),
          some (Val.num 50)]⟩]⟩

/-- The low-cardinality scenario `{id:range(10), category:["A","B"]*5}`
(spec §8; `tests/test_core.py`, `test_low_cardinality_categoricals`). -/
def lowCardDs : Dataset :=
  ⟨10, [⟨"id", Dtype.numeric, (List.range 10).map fun i => some (Val.num i)⟩,
        ⟨"category", Dtype.nonNumeric,
          (List.range 5).flatMap fun _ => [some (Val.str "A"), some (Val.str "B")]⟩]⟩

/-- The constant-column scenario
`{id:[1..5], constant_col:[10,10,10,10,10], normal_col:[1,2,3,4,5]}`
(spec §8; `tests/test_core.py`, `test_constant_columns_heuristic`). -/
def constantColDs : Dataset :=
  ⟨5, [⟨"id", Dtype.numeric,
        [some (Val.num 1), some (Val.num 2), some (Val.num 3), some (Val.num 4),
          some (Val.num 5)]⟩,
       ⟨"constant_col", Dtype.numeric,
        [some (Val.num 10), some (Val.num 10), some (Val.num 10), some (Val.num 10),
          some (Val.num 10)]⟩,
       ⟨"normal_col", Dtype.numeric,
        [some (Val.num 1), some (Val.num 2), some (Val.num 3), some (Val.num 4),
          some (Val.num 5)]⟩]⟩

/-! ### Supporting lemmas -/

lemma countP_isSome_add_countP_isNone {α : Type _} (l : List (Option α)) :
    l.countP (fun o => o.isSome) + l.countP (fun o => o.isNone) = l.length := by
  induction l with
  | nil => rfl
  | cons o l ih =>
    cases o <;> simp [List.countP_cons, ← ih] <;> omega

lemma length_filterMap_id {α : Type _} (l : List (Option α)) :
    (l.filterMap id).length = l.countP (fun o => o.isSome) := by
  induction l with
  | nil => rfl
  | cons o l ih =>
    cases o <;> simp [List.filterMap_cons, List.countP_cons, ih]

lemma count_filterMap_id {α : Type _} [DecidableEq α] (l : List (Option α)) (v : α) :
    (l.filterMap id).count v = l.count (some v) := by
  induction l with
  | nil => rfl
  | cons o l ih =>
    cases o with
    | none => simpa [List.filterMap_cons, List.count_cons] using ih
    | some a => simp [List.filterMap_cons, List.count_cons, ih]

lemma mem_dedupFO {α : Type _} [DecidableEq α] (a : α) :
    ∀ (l seen : List α), a ∈ dedupFO seen l ↔ a ∈ l ∧ a ∉ seen
  | [], seen => by simp [dedupFO]
  | b :: l, seen => by
    by_cases hb : b ∈ seen
    · rw [dedupFO, if_pos hb, mem_dedupFO a l seen]
      constructor
      · rintro ⟨h1, h2⟩
        exact ⟨List.mem_cons_of_mem _ h1, h2⟩
      · rintro ⟨h1, h2⟩
        rcases List.mem_cons.mp h1 with rfl | h1
        · exact absurd hb h2
        · exact ⟨h1, h2⟩
    · rw [dedupFO, if_neg hb]
      constructor
      · intro h
        rcases List.mem_cons.mp h with rfl | h
        · exact ⟨List.mem_cons_self _ _, hb⟩
        · rcases (mem_dedupFO a l (b :: seen)).mp h with ⟨h1, h2⟩
          refine ⟨List.mem_cons_of_mem _ h1, fun hs => h2 (List.mem_cons_of_mem _ hs)⟩
      · rintro ⟨h1, h2⟩
        rcases List.mem_cons.mp h1 with rfl | h1
        · exact List.mem_cons_self _ _
        · by_cases hab : a = b
          · subst hab
            exact List.mem_cons_self _ _
          · refine List.mem_cons_of_mem _ ((mem_dedupFO a l (b :: seen)).mpr ⟨h1, ?_⟩)
            intro hs
            rcases List.mem_cons.mp hs with h | h
            · exact hab h
            · exact h2 h

lemma nodup_dedupFO {α : Type _} [DecidableEq α] :
    ∀ (l seen : List α), (dedupFO seen l).Nodup
  | [], _ => List.nodup_nil
  | b :: l, seen => by
    by_cases hb : b ∈ seen
    · rw [dedupFO, if_pos hb]
      exact nodup_dedupFO l seen
    · rw [dedupFO, if_neg hb]
      refine List.Nodup.cons ?_ (nodup_dedupFO l (b :: seen))
      intro hmem
      exact ((mem_dedupFO b l (b :: seen)).mp hmem).2 (List.mem_cons_self _ _)

lemma length_dedupFO_le {α : Type _} [DecidableEq α] :
    ∀ (l seen : List α), (dedupFO seen l).length ≤ l.length
  | [], _ => Nat.le_refl 0
  | b :: l, seen => by
    by_cases hb : b ∈ seen
    · rw [dedupFO, if_pos hb]
      exact (length_dedupFO_le l seen).trans (Nat.le_succ _)
    · rw [dedupFO, if_neg hb]
      simpa using Nat.succ_le_succ (length_dedupFO_le l (b :: seen))

lemma mkRat_nat_nonneg (m n : Nat) : 0 ≤ mkRat (m : Int) n := by
  rw [Rat.mkRat_eq_div]
  positivity

lemma mkRat_nat_le_one (m n : Nat) (h : m ≤ n) : mkRat (m : Int) n ≤ 1 := by
  rw [Rat.mkRat_eq_div]
  rcases Nat.eq_zero_or_pos n with hn | hn
  · subst hn
    simp
  · rw [div_le_one (by exact_mod_cast hn)]
    exact_mod_cast h

lemma clamp01_nonneg (q : ℚ) : 0 ≤ clamp01 q := by
  unfold clamp01
  split_ifs with h1 h2 <;> linarith

lemma clamp01_le_one (q : ℚ) : clamp01 q ≤ 1 := by
  unfold clamp01
  split_ifs with h1 h2 <;> linarith

lemma clamp01_mono {a b : ℚ} (h : a ≤ b) : clamp01 a ≤ clamp01 b := by
  unfold clamp01
  split_ifs with h1 h2 h3 h4 h5 <;> linarith

lemma fifth_nonneg : (0 : ℚ) ≤ mkRat 1 5 := mkRat_nat_nonneg 1 5

lemma qualityScore_nonneg (fr mc mm : Bool) (mms : ℚ) :
    0 ≤ qualityScore fr mc mm mms :=
  clamp01_nonneg _

lemma qualityScore_le_one (fr mc mm : Bool) (mms : ℚ) :
    qualityScore fr mc mm mms ≤ 1 :=
  clamp01_le_one _

lemma qualityScore_anti_mms (fr mc mm : Bool) {a b : ℚ} (h : a ≤ b) :
    qualityScore fr mc mm b ≤ qualityScore fr mc mm a := by
  unfold qualityScore
  refine clamp01_mono ?_
  have h25 : (0 : ℚ) ≤ mkRat 2 5 := mkRat_nat_nonneg 2 5
  have := mul_le_mul_of_nonneg_left h h25
  linarith

lemma qualityScore_anti_fewRows (mc mm : Bool) (mms : ℚ) :
    qualityScore true mc mm mms ≤ qualityScore false mc mm mms := by
  unfold qualityScore
  refine clamp01_mono ?_
  have := fifth_nonneg
  simp


lemma qualityScore_anti_manyCols (fr mm : Bool) (mms : ℚ) :
    qualityScore fr true mm mms ≤ qualityScore fr false mm mms := by
  unfold qualityScore
  refine clamp01_mono ?_
  have := fifth_nonneg
  simp


lemma qualityScore_anti_manyMissing (fr mc : Bool) (mms : ℚ) :
    qualityScore fr mc true mms ≤ qualityScore fr mc false mms := by
  unfold qualityScore
  refine clamp01_mono ?_
  have := fifth_nonneg
  simp


lemma profileColumn_name (n : Nat) (c : Col) : (profileColumn n c).name = c.name := rfl

lemma profileColumn_non_null (n : Nat) (c : Col) :
    (profileColumn n c).non_null = nonNullCount c := rfl

lemma profileColumn_unique (n : Nat) (c : Col) :
    (profileColumn n c).unique = distinctCount c := rfl

lemma col_eq_of_name_eq {ds : Dataset} (h : ds.WellFormed) {c c' : Col}
    (hc : c ∈ ds.cols) (hc' : c' ∈ ds.cols) (hn : c.name = c'.name) : c = c' :=
  List.inj_on_of_nodup_map h.2 hc hc' hn

lemma bnot_isEmpty_iff {α : Type _} (l : List α) : (!l.isEmpty) = true ↔ l ≠ [] := by
  cases l <;> simp

/-- Membership of a column's name in a name list obtained by filtering the
dataset's summary: with unique column names it is equivalent to the filtered
predicate holding of that column's profile. -/
lemma mem_filter_summary_names {ds : Dataset} (h : ds.WellFormed)
    (p : ColumnSummary → Bool) {c : Col} (hc : c ∈ ds.cols) :
    c.name ∈ (((summarize_dataset ds).columns.filter p).map ColumnSummary.name) ↔
      p (profileColumn ds.nRows c) = true := by
  constructor
  · intro hmem
    obtain ⟨cs, hcs, hname⟩ := List.mem_map.mp hmem
    obtain ⟨hcs_mem, hp⟩ := List.mem_filter.mp hcs
    obtain ⟨c', hc', rfl⟩ := List.mem_map.mp hcs_mem
    have hcc : c' = c := col_eq_of_name_eq h hc' hc hname
    rwa [hcc] at hp
  · intro hp
    exact List.mem_map.mpr ⟨profileColumn ds.nRows c,
      List.mem_filter.mpr ⟨List.mem_map_of_mem _ hc, hp⟩, rfl⟩

lemma beq_numeric_eq_false_iff (d : Dtype) :
    ((d == Dtype.numeric) = false) ↔ d = Dtype.nonNumeric := by
  cases d <;> decide

lemma sum_counts_aux (n : Nat) :
    ∀ l : List Col, (∀ c ∈ l, c.cells.length = n) →
      (l.map fun c => c.cells.countP (fun o => o.isNone)).sum +
      (l.map fun c => c.cells.countP (fun o => o.isSome)).sum = n * l.length := by
  intro l
  induction l with
  | nil => simp
  | cons c l ih =>
    intro h
    have hc : c.cells.countP (fun o => o.isSome) + c.cells.countP (fun o => o.isNone) =
        n := by
      rw [countP_isSome_add_countP_isNone]
      exact h c (List.mem_cons_self _ _)
    have hrest := ih fun c' hc' => h c' (List.mem_cons_of_mem _ hc')
    simp only [List.map_cons, List.sum_cons, List.length_cons, Nat.mul_succ]
    omega

lemma pairedRows_swap :
    ∀ xs ys : List (Option Val), pairedRows ys xs = (pairedRows xs ys).map Prod.swap
  | [], ys => by
    cases ys <;> simp [pairedRows]
  | x :: xs, [] => by
    simp [pairedRows]
  | x :: xs, y :: ys => by
    have ih := pairedRows_swap xs ys
    cases x <;> cases y <;>
      simp_all [pairedRows, List.zip_cons_cons, List.filterMap_cons]

lemma varSumFst_map_swap (p : List (ℚ × ℚ)) :
    varSumFst (p.map Prod.swap) = varSumSnd p := by
  simp only [varSumFst, varSumSnd, List.map_map, List.length_map]
  rfl

lemma varSumSnd_map_swap (p : List (ℚ × ℚ)) :
    varSumSnd (p.map Prod.swap) = varSumFst p := by
  simp only [varSumFst, varSumSnd, List.map_map, List.length_map]
  rfl

lemma covSum_map_swap (p : List (ℚ × ℚ)) :
    covSum (p.map Prod.swap) = covSum p := by
  simp only [covSum, List.map_map, List.length_map]
  have h1 : (p.map ((fun q : ℚ × ℚ => q.1 * q.2) ∘ Prod.swap)) =
      p.map fun q => q.1 * q.2 :=
    List.map_congr_left fun q _ => mul_comm q.2 q.1
  rw [h1]
  congr 1
  exact congrArg (fun x => qdivNat x p.length)
    (mul_comm ((p.map Prod.snd).sum) ((p.map Prod.fst).sum))

lemma pearsonCell_symm (xs ys : List (Option Val)) :
    pearsonCell ys xs = pearsonCell xs ys := by
  unfold pearsonCell
  rw [pairedRows_swap xs ys, List.length_map, varSumFst_map_swap, varSumSnd_map_swap,
    covSum_map_swap]
  by_cases hc : (pairedRows xs ys).length < 2 ∨ varSumFst (pairedRows xs ys) = 0 ∨
      varSumSnd (pairedRows xs ys) = 0
  · rw [if_pos (by tauto), if_pos hc]
  · rw [if_neg (by tauto), if_neg hc]
    rw [mul_comm (varSumSnd (pairedRows xs ys)) (varSumFst (pairedRows xs ys))]

lemma getD_range_map {α : Type _} (f : Nat → α) (n i : Nat) (d : α) :
    ((List.range n).map f).getD i d = if i < n then f i else d := by
  rcases Nat.lt_or_ge i n with h | h
  · rw [if_pos h, List.getD_eq_getElem?_getD, List.getElem?_map, List.getElem?_range h]
    rfl
  · rw [if_neg (Nat.not_lt.mpr h), List.getD_eq_getElem?_getD, List.getElem?_eq_none]
    · rfl
    · simpa using h

lemma correlation_matrix_cell (ds : Dataset) (h2 : 2 ≤ (numericCols ds).length)
    (i j : Nat) :
    (correlation_matrix ds).cell i j =
      if i < (numericCols ds).length ∧ j < (numericCols ds).length then
        corrCell (numericCols ds) i j
      else none := by
  have hmat : correlation_matrix ds =
      ⟨(numericCols ds).map Col.name,
        (List.range (numericCols ds).length).map fun i =>
          (List.range (numericCols ds).length).map fun j =>
            corrCell (numericCols ds) i j⟩ := by
    unfold correlation_matrix
    rw [if_neg (Nat.not_lt.mpr h2)]
  rw [hmat]
  show (((List.range (numericCols ds).length).map fun i =>
      (List.range (numericCols ds).length).map fun j =>
        corrCell (numericCols ds) i j).getD i []).getD j none = _
  rw [getD_range_map]
  rcases Nat.lt_or_ge i (numericCols ds).length with hi | hi
  · rw [if_pos hi, getD_range_map]
    rcases Nat.lt_or_ge j (numericCols ds).length with hj | hj
    · rw [if_pos hj, if_pos ⟨hi, hj⟩]
    · rw [if_neg (Nat.not_lt.mpr hj), if_neg fun hh => (Nat.not_lt.mpr hj) hh.2]
  · rw [if_neg (Nat.not_lt.mpr hi)]
    show (([] : List (Option ℚ)).getD j none) = _
    rw [if_neg fun hh => (Nat.not_lt.mpr hi) hh.1]
    rfl

lemma corrCell_symm (cs : List Col) (i j : Nat) : corrCell cs i j = corrCell cs j i := by
  unfold corrCell
  by_cases hij : i = j
  · subst hij
    rfl
  · rw [if_neg hij, if_neg (Ne.symm hij)]
    exact pearsonCell_symm _ _

lemma mem_filterMap_id_iff {α : Type _} (l : List (Option α)) (v : α) :
    v ∈ l.filterMap id ↔ some v ∈ l := by
  rw [List.mem_filterMap]
  constructor
  · rintro ⟨o, ho, rfl⟩
    exact ho
  · intro h
    exact ⟨some v, h, rfl⟩

lemma catCounts_map_fst (c : Col) : (catCounts c).map Prod.fst = distinctVals c := by
  rw [catCounts, List.map_map,
    show (Prod.fst ∘ fun v => (v, (presentVals c).count v)) = id from rfl, List.map_id]

lemma mem_catCounts (c : Col) {e : Val × Nat} (he : e ∈ catCounts c) :
    e.1 ∈ distinctVals c ∧ e.2 = (presentVals c).count e.1 := by
  obtain ⟨v, hv, rfl⟩ := List.mem_map.mp he
  exact ⟨hv, rfl⟩

lemma beq_nonNumeric_iff (d : Dtype) :
    ((d == Dtype.nonNumeric) = true) ↔ d = Dtype.nonNumeric := by
  cases d <;> decide

lemma distinctCount_le_nonNullCount (c : Col) : distinctCount c ≤ nonNullCount c := by
  unfold distinctCount distinctVals nonNullCount
  calc (dedupFO [] (presentVals c)).length ≤ (presentVals c).length :=
        length_dedupFO_le _ _
    _ = c.cells.countP (fun o => o.isSome) := length_filterMap_id c.cells

lemma length_nums (c : Col) : ((presentVals c).map valToNum).length = nonNullCount c := by
  rw [List.length_map]
  exact length_filterMap_id c.cells

lemma listMinQ_isSome_iff (l : List ℚ) : (listMinQ l).isSome = true ↔ 1 ≤ l.length := by
  cases l <;> simp [listMinQ]

lemma listMaxQ_isSome_iff (l : List ℚ) : (listMaxQ l).isSome = true ↔ 1 ≤ l.length := by
  cases l <;> simp [listMaxQ]

lemma meanQ_isSome_iff (l : List ℚ) : (meanQ l).isSome = true ↔ 1 ≤ l.length := by
  cases l <;> simp [meanQ]

lemma sampleVarQ_isSome_iff (l : List ℚ) : (sampleVarQ l).isSome = true ↔ 2 ≤ l.length := by
  unfold sampleVarQ
  split_ifs with hl <;> simp <;> omega

lemma profileColumn_is_numeric (n : Nat) (c : Col) :
    (profileColumn n c).is_numeric = (c.dtype == Dtype.numeric) := rfl

lemma profileColumn_missing (n : Nat) (c : Col) :
    (profileColumn n c).missing = n - nonNullCount c := rfl

lemma profileColumn_missing_share (n : Nat) (c : Col) :
    (profileColumn n c).missing_share = mkRat ((n - nonNullCount c : Nat) : Int) n := rfl

lemma profileColumn_min (n : Nat) (c : Col) :
    (profileColumn n c).min =
      if c.dtype == Dtype.numeric then listMinQ ((presentVals c).map valToNum)
      else none := rfl

lemma profileColumn_max (n : Nat) (c : Col) :
    (profileColumn n c).max =
      if c.dtype == Dtype.numeric then listMaxQ ((presentVals c).map valToNum)
      else none := rfl

lemma profileColumn_mean (n : Nat) (c : Col) :
    (profileColumn n c).mean =
      if c.dtype == Dtype.numeric then meanQ ((presentVals c).map valToNum)
      else none := rfl

lemma profileColumn_std (n : Nat) (c : Col) :
    (profileColumn n c).std =
      if c.dtype == Dtype.numeric then sampleVarQ ((presentVals c).map valToNum)
      else none := rfl

/-! ### The claims -/

/-- Claim C1: each of the five core entry points (`summarize_dataset`,
`missing_table`, `correlation_matrix`, `top_categories`,
`compute_quality_flags`) is total — in this embedding they are total Lean
functions — and for every structurally well-formed Dataset, including the
empty dataset, datasets with zero numeric columns and all-missing columns,
they return well-formed degenerate results: shares within [0,1],
`unique ≤ non_null`, statistics absent exactly where undefined, the
correlation matrix empty below 2 numeric columns, category lists truncated,
and on the empty dataset empty tables and all-false flags. -/
theorem claim_C1 (ds : Dataset) (h : ds.WellFormed) :
    ((summarize_dataset ds).n_rows = ds.nRows ∧
     (summarize_dataset ds).n_cols = (summarize_dataset ds).columns.length ∧
     (∀ cs ∈ (summarize_dataset ds).columns,
       0 ≤ cs.missing_share ∧ cs.missing_share ≤ 1 ∧
       cs.unique ≤ cs.non_null ∧
       cs.non_null + cs.missing = (summarize_dataset ds).n_rows ∧
       (cs.is_numeric = false →
         cs.min = none ∧ cs.max = none ∧ cs.mean = none ∧ cs.std = none) ∧
       (cs.is_numeric = true →
         ((cs.min.isSome = true ∧ cs.max.isSome = true ∧ cs.mean.isSome = true) ↔
           1 ≤ cs.non_null) ∧
         (cs.std.isSome = true ↔ 2 ≤ cs.non_null)))) ∧
    ((missing_table ds).length = ds.cols.length ∧
     (∀ e ∈ missing_table ds, 0 ≤ e.missing_share ∧ e.missing_share ≤ 1)) ∧
    ((numericCols ds).length < 2 → correlation_matrix ds = ⟨[], []⟩) ∧
    (∀ p ∈ top_categories ds, p.2.length ≤ defaultTopK) ∧
    (ds.nRows = 0 → ds.cols = [] →
      (summarize_dataset ds).columns = [] ∧ missing_table ds = [] ∧
      correlation_matrix ds = ⟨[], []⟩ ∧ top_categories ds = [] ∧
      qualityFlagsOf ds =
        ⟨1, 0, false, false, false, false, [], 0, false, [], 0, false, []⟩) := by
  obtain ⟨hlen, hnodup⟩ := h
  refine ⟨⟨rfl, ?_, ?_⟩, ⟨?_, ?_⟩, ?_, ?_, ?_⟩
  · show ds.cols.length = (ds.cols.map (profileColumn ds.nRows)).length
    rw [List.length_map]
  · intro cs hcs
    obtain ⟨c, hc, rfl⟩ := List.mem_map.mp hcs
    have hnnle : nonNullCount c ≤ ds.nRows := by
      have hcp : c.cells.countP (fun o => o.isSome) ≤ c.cells.length :=
        List.countP_le_length _
      have := hlen c hc
      unfold nonNullCount
      omega
    refine ⟨?_, ?_, ?_, ?_, ?_, ?_⟩
    · rw [profileColumn_missing_share]
      exact mkRat_nat_nonneg _ _
    · rw [profileColumn_missing_share]
      exact mkRat_nat_le_one _ _ (Nat.sub_le _ _)
    · exact distinctCount_le_nonNullCount c
    · show nonNullCount c + (ds.nRows - nonNullCount c) = ds.nRows
      omega
    · intro hfalse
      rw [profileColumn_is_numeric] at hfalse
      rw [profileColumn_min, profileColumn_max, profileColumn_mean, profileColumn_std,
        if_neg (by simp [hfalse]), if_neg (by simp [hfalse]), if_neg (by simp [hfalse]),
        if_neg (by simp [hfalse])]
      exact ⟨rfl, rfl, rfl, rfl⟩
    · intro htrue
      rw [profileColumn_is_numeric] at htrue
      rw [profileColumn_min, profileColumn_max, profileColumn_mean, profileColumn_std,
        if_pos htrue, if_pos htrue, if_pos htrue, if_pos htrue]
      constructor
      · rw [listMinQ_isSome_iff, listMaxQ_isSome_iff, meanQ_isSome_iff, length_nums]
        show _ ↔ 1 ≤ nonNullCount c
        tauto
      · rw [sampleVarQ_isSome_iff, length_nums]
        rfl
  · show (ds.cols.map _).length = ds.cols.length
    rw [List.length_map]
  · intro e he
    obtain ⟨c, hc, rfl⟩ := List.mem_map.mp he
    refine ⟨mkRat_nat_nonneg _ _, mkRat_nat_le_one _ _ ?_⟩
    have hcp : c.cells.countP (fun o => o.isNone) ≤ c.cells.length :=
      List.countP_le_length _
    have := hlen c hc
    omega
  · intro hlt
    unfold correlation_matrix
    rw [if_pos hlt]
  · intro p hp
    obtain ⟨c, hc, rfl⟩ := List.mem_map.mp hp
    show ((sortedCats c).take defaultTopK).length ≤ defaultTopK
    rw [List.length_take]
    exact Nat.min_le_left _ _
  · intro h0 hnil
    obtain ⟨nR, cols⟩ := ds
    simp only at h0 hnil
    subst h0
    subst hnil
    exact ⟨rfl, rfl, by decide, rfl, by decide⟩

/-- Claim C1, witnessed at the empty dataset: degenerate but well-formed
outputs, with all quality flags false. -/
theorem claim_C1_witness :
    (summarize_dataset emptyDs).columns = [] ∧ missing_table emptyDs = [] ∧
    correlation_matrix emptyDs = ⟨[], []⟩ ∧ top_categories emptyDs = [] ∧
    qualityFlagsOf emptyDs =
      ⟨1, 0, false, false, false, false, [], 0, false, [], 0, false, []⟩ :=
  (claim_C1 emptyDs (by decide)).2.2.2.2 rfl rfl

/-- Claim C2: for every dataset, the sum of `missing_count` over the
MissingTable plus the sum of `non_null` over the ColumnSummary entries
equals `n_rows * n_cols`; the MissingTable includes all columns, and per
column `missing = n_rows − non_null`. -/
theorem claim_C2 (ds : Dataset) (h : ds.WellFormed) :
    (((missing_table ds).map MissingEntry.missing_count).sum +
      ((summarize_dataset ds).columns.map ColumnSummary.non_null).sum =
      (summarize_dataset ds).n_rows * (summarize_dataset ds).n_cols) ∧
    ((missing_table ds).map MissingEntry.name = ds.cols.map Col.name) ∧
    (∀ cs ∈ (summarize_dataset ds).columns,
      cs.missing = (summarize_dataset ds).n_rows - cs.non_null ∧
      cs.non_null + cs.missing = (summarize_dataset ds).n_rows) := by
  have h1 : (missing_table ds).map MissingEntry.missing_count =
      ds.cols.map fun c => c.cells.countP (fun o => o.isNone) := by
    simp only [missing_table, List.map_map]
    rfl
  have h2 : (summarize_dataset ds).columns.map ColumnSummary.non_null =
      ds.cols.map fun c => c.cells.countP (fun o => o.isSome) := by
    simp only [summarize_dataset, List.map_map]
    rfl
  refine ⟨?_, ?_, ?_⟩
  · rw [h1, h2]
    exact sum_counts_aux ds.nRows ds.cols h.1
  · simp only [missing_table, List.map_map]
    rfl
  · intro cs hcs
    obtain ⟨c, hc, rfl⟩ := List.mem_map.mp hcs
    refine ⟨rfl, ?_⟩
    have hle : c.cells.countP (fun o => o.isSome) ≤ c.cells.length :=
      List.countP_le_length _
    have hlen := h.1 c hc
    show nonNullCount c + (ds.nRows - nonNullCount c) = ds.nRows
    unfold nonNullCount
    omega

/-- Claim C2, witnessed at the test suite's sample dataset:
1 + 0 + 1 missing plus 3 + 4 + 3 present equals 4 · 3. -/
theorem claim_C2_witness :
    ((missing_table sampleDs).map MissingEntry.missing_count).sum +
      ((summarize_dataset sampleDs).columns.map ColumnSummary.non_null).sum =
      (summarize_dataset sampleDs).n_rows * (summarize_dataset sampleDs).n_cols :=
  (claim_C2 sampleDs (by decide)).1

/-- Claim C5: `compute_quality_flags` flags a column (numeric or non-numeric)
as constant exactly when it has exactly 1 distinct non-missing value among
`non_null ≥ 1` rows; an all-missing column (`non_null = 0`) is never flagged;
`has_constant_columns` is true iff the list of flagged names is non-empty,
and `n_constant_columns` equals its length. -/
theorem claim_C5 (ds : Dataset) (cfg : QualityConfig) (h : ds.WellFormed)
    (c : Col) (hc : c ∈ ds.cols) :
    ((c.name ∈ (qualityFlagsOf ds cfg).constant_columns) ↔
      (1 ≤ nonNullCount c ∧ distinctCount c = 1)) ∧
    (nonNullCount c = 0 → c.name ∉ (qualityFlagsOf ds cfg).constant_columns) ∧
    ((qualityFlagsOf ds cfg).has_constant_columns = true ↔
      (qualityFlagsOf ds cfg).constant_columns ≠ []) ∧
    ((qualityFlagsOf ds cfg).n_constant_columns =
      (qualityFlagsOf ds cfg).constant_columns.length) := by
  have hflags : (qualityFlagsOf ds cfg).constant_columns =
      ((summarize_dataset ds).columns.filter fun cs =>
        decide (1 ≤ cs.non_null ∧ cs.unique = 1)).map ColumnSummary.name := rfl
  have hmem := mem_filter_summary_names h
    (fun cs => decide (1 ≤ cs.non_null ∧ cs.unique = 1)) hc
  have hiff : (c.name ∈ (qualityFlagsOf ds cfg).constant_columns) ↔
      (1 ≤ nonNullCount c ∧ distinctCount c = 1) := by
    rw [hflags, hmem]
    simp [profileColumn_non_null, profileColumn_unique]
  refine ⟨hiff, ?_, ?_, rfl⟩
  · intro h0 hmem'
    have := (hiff.mp hmem').1
    omega
  · exact bnot_isEmpty_iff _

/-- Claim C5, witnessed at the constant-column scenario from the test suite:
`constant_col` is flagged. -/
theorem claim_C5_witness :
    "constant_col" ∈ (qualityFlagsOf constantColDs).constant_columns :=
  (claim_C5 constantColDs {} (by decide) (constantColDs.cols.getD 1 emptyCol)
    (by decide)).1.mpr (by decide)

/-- Claim C8: `compute_quality_flags` flags as high-cardinality exactly the
non-numeric columns whose unique count is strictly greater than
`high_cardinality_threshold` (default 50); a column at or below the threshold
is not flagged, so for `{id:range(10), category:["A","B"]*5}` (unique = 2)
the result has `has_high_cardinality_categoricals = false` and
`n_high_cardinality_columns = 0`. -/
theorem claim_C8 :
    (∀ (ds : Dataset) (cfg : QualityConfig), ds.WellFormed → ∀ c ∈ ds.cols,
      ((c.name ∈ (qualityFlagsOf ds cfg).high_cardinality_columns) ↔
        (c.dtype = Dtype.nonNumeric ∧ cfg.high_cardinality_threshold < distinctCount c)) ∧
      ((qualityFlagsOf ds cfg).has_high_cardinality_categoricals = true ↔
        (qualityFlagsOf ds cfg).high_cardinality_columns ≠ []) ∧
      ((qualityFlagsOf ds cfg).n_high_cardinality_columns =
        (qualityFlagsOf ds cfg).high_cardinality_columns.length)) ∧
    (({} : QualityConfig).high_cardinality_threshold = 50) ∧
    ((qualityFlagsOf lowCardDs).has_high_cardinality_categoricals = false ∧
      (qualityFlagsOf lowCardDs).n_high_cardinality_columns = 0 ∧
      distinctCount (lowCardDs.cols.getD 1 emptyCol) = 2) := by
  refine ⟨?_, rfl, by decide, by decide, by decide⟩
  intro ds cfg h c hc
  have hflags : (qualityFlagsOf ds cfg).high_cardinality_columns =
      ((summarize_dataset ds).columns.filter fun cs =>
        decide (cs.is_numeric = false ∧ cfg.high_cardinality_threshold < cs.unique)).map
        ColumnSummary.name := rfl
  have hmem := mem_filter_summary_names h
    (fun cs => decide (cs.is_numeric = false ∧ cfg.high_cardinality_threshold < cs.unique)) hc
  refine ⟨?_, bnot_isEmpty_iff _, rfl⟩
  rw [hflags, hmem]
  have hbeq := beq_numeric_eq_false_iff c.dtype
  simp only [decide_eq_true_eq, profileColumn_unique]
  constructor
  · rintro ⟨h1, h2⟩
    exact ⟨hbeq.mp h1, h2⟩
  · rintro ⟨h1, h2⟩
    exact ⟨hbeq.mpr h1, h2⟩

/-- Claim C6: `compute_quality_flags` reports a suspicious-ID record exactly
for the columns (of any dtype) whose name matches the identifier-like
pattern (default: case-insensitive substring "id"), that have `non_null ≥ 1`
and `unique < non_null`, each record carrying
`duplicate_ratio = 1 − unique/non_null`; in particular, for the dataset
`{user_id:[1,2,3,1,2], value:[10,20,30,40,50]}` it returns
`has_suspicious_id_duplicates = true` with exactly one record, for
`user_id`, with `duplicate_ratio = 0.4`. -/
theorem claim_C6 :
    (∀ (ds : Dataset) (cfg : QualityConfig), ds.WellFormed → ∀ c ∈ ds.cols,
      ((∃ r ∈ (qualityFlagsOf ds cfg).suspicious_id_columns, r.column = c.name ∧
          r.duplicate_ratio = 1 - (distinctCount c : ℚ) / (nonNullCount c : ℚ)) ↔
        (idLike cfg.id_name_pattern c.name = true ∧ 1 ≤ nonNullCount c ∧
          distinctCount c < nonNullCount c)) ∧
      ((qualityFlagsOf ds cfg).has_suspicious_id_duplicates = true ↔
        (qualityFlagsOf ds cfg).suspicious_id_columns ≠ [])) ∧
    (({} : QualityConfig).id_name_pattern = "id") ∧
    ((qualityFlagsOf duplicateIdDs).has_suspicious_id_duplicates = true ∧
      (qualityFlagsOf duplicateIdDs).suspicious_id_columns.map SuspiciousId.column =
        ["user_id"] ∧
      (qualityFlagsOf duplicateIdDs).suspicious_id_columns.map SuspiciousId.duplicate_ratio =
        [1 - (3 : ℚ) / 5]) := by
  refine ⟨?_, rfl, by decide, by decide, by decide⟩
  intro ds cfg h c hc
  refine ⟨?_, bnot_isEmpty_iff _⟩
  have hflags : (qualityFlagsOf ds cfg).suspicious_id_columns =
      (summarize_dataset ds).columns.filterMap (fun cs =>
        if idLike cfg.id_name_pattern cs.name = true ∧ 1 ≤ cs.non_null ∧
            cs.unique < cs.non_null then
          some { column := cs.name
                 description := "Колонка " ++ cs.name
                 duplicate_ratio := 1 - mkRat (cs.unique : Int) cs.non_null }
        else none) := rfl
  have hratio : (1 : ℚ) - mkRat ((distinctCount c : Nat) : Int) (nonNullCount c) =
      1 - (distinctCount c : ℚ) / (nonNullCount c : ℚ) := by
    rw [Rat.mkRat_eq_div]
    norm_num
  constructor
  · rintro ⟨r, hr, hcol, _⟩
    rw [hflags] at hr
    obtain ⟨cs, hcs, hf⟩ := List.mem_filterMap.mp hr
    obtain ⟨c', hc', rfl⟩ := List.mem_map.mp hcs
    by_cases hcond : idLike cfg.id_name_pattern (profileColumn ds.nRows c').name = true ∧
        1 ≤ (profileColumn ds.nRows c').non_null ∧
        (profileColumn ds.nRows c').unique < (profileColumn ds.nRows c').non_null
    · rw [if_pos hcond] at hf
      have hfr := Option.some.inj hf
      have hname : c'.name = c.name := by
        rw [← hcol, ← hfr]
        rfl
      have hcc : c' = c := col_eq_of_name_eq h hc' hc hname
      subst hcc
      exact hcond
    · rw [if_neg hcond] at hf
      exact absurd hf (by simp)
  · rintro ⟨h1, h2, h3⟩
    refine ⟨{ column := c.name
              description := "Колонка " ++ c.name
              duplicate_ratio := 1 - mkRat (distinctCount c : Int) (nonNullCount c) },
      ?_, rfl, hratio⟩
    rw [hflags]
    refine List.mem_filterMap.mpr ⟨profileColumn ds.nRows c, List.mem_map_of_mem _ hc, ?_⟩
    rw [if_pos ⟨h1, h2, h3⟩]
    rfl

/-- Claim C4: for every DatasetSummary and MissingTable input, including
those computed from the empty dataset, `quality_score` lies in [0,1], and it
is monotonically non-increasing in each of the flags `too_few_rows`,
`too_many_columns`, `too_many_missing` and in `max_missing_share`
(the score is the documented function `qualityScore` of exactly those four
quantities). -/
theorem claim_C4 :
    (∀ (s : DatasetSummary) (mt : List MissingEntry) (cfg : QualityConfig),
      0 ≤ (compute_quality_flags s mt cfg).quality_score ∧
      (compute_quality_flags s mt cfg).quality_score ≤ 1 ∧
      (compute_quality_flags s mt cfg).quality_score =
        qualityScore (compute_quality_flags s mt cfg).too_few_rows
          (compute_quality_flags s mt cfg).too_many_columns
          (compute_quality_flags s mt cfg).too_many_missing
          (compute_quality_flags s mt cfg).max_missing_share) ∧
    (∀ (fr mc mm : Bool) (a b : ℚ), a ≤ b →
      qualityScore fr mc mm b ≤ qualityScore fr mc mm a) ∧
    (∀ (mc mm : Bool) (x : ℚ), qualityScore true mc mm x ≤ qualityScore false mc mm x) ∧
    (∀ (fr mm : Bool) (x : ℚ), qualityScore fr true mm x ≤ qualityScore fr false mm x) ∧
    (∀ (fr mc : Bool) (x : ℚ), qualityScore fr mc true x ≤ qualityScore fr mc false x) :=
  ⟨fun _ _ _ => ⟨qualityScore_nonneg _ _ _ _, qualityScore_le_one _ _ _ _, rfl⟩,
    fun fr mc mm _ _ hab => qualityScore_anti_mms fr mc mm hab,
    qualityScore_anti_fewRows, qualityScore_anti_manyCols, qualityScore_anti_manyMissing⟩

/-- Claim C4, witnessed at the empty dataset and at the concrete shares
1/4 ≤ 1/2. -/
theorem claim_C4_witness :
    (0 ≤ (qualityFlagsOf emptyDs).quality_score ∧
      (qualityFlagsOf emptyDs).quality_score ≤ 1) ∧
    qualityScore false false false (mkRat 1 2) ≤ qualityScore false false false (mkRat 1 4) :=
  ⟨⟨(claim_C4.1 (summarize_dataset emptyDs) (missing_table emptyDs) {}).1,
      (claim_C4.1 (summarize_dataset emptyDs) (missing_table emptyDs) {}).2.1⟩,
    claim_C4.2.1 false false false (mkRat 1 4) (mkRat 1 2) (by decide)⟩

/-- Claim C9: all threshold parameters of the two configurable entry points
are optional with built-in defaults: `top_categories ds` with no
`max_columns`/`top_k` arguments and `compute_quality_flags s mt` with no
configuration argument are the same calls as with the documented defaults,
and the default-call results are well formed (entries truncated to the
default `top_k`, score within [0,1]). -/
theorem claim_C9 :
    (∀ ds : Dataset, top_categories ds = top_categories ds defaultMaxColumns defaultTopK) ∧
    (∀ (s : DatasetSummary) (mt : List MissingEntry),
      compute_quality_flags s mt = compute_quality_flags s mt {}) ∧
    (∀ (ds : Dataset) (nm : String) (es : List (Val × Nat)),
      (nm, es) ∈ top_categories ds → es.length ≤ defaultTopK) ∧
    (∀ (s : DatasetSummary) (mt : List MissingEntry),
      0 ≤ (compute_quality_flags s mt).quality_score ∧
      (compute_quality_flags s mt).quality_score ≤ 1) := by
  refine ⟨fun _ => rfl, fun _ _ => rfl, ?_,
    fun _ _ => ⟨qualityScore_nonneg _ _ _ _, qualityScore_le_one _ _ _ _⟩⟩
  intro ds nm es hmem
  obtain ⟨c, _, heq⟩ := List.mem_map.mp hmem
  have hsnd : (sortedCats c).take defaultTopK = es := congrArg Prod.snd heq
  rw [← hsnd, List.length_take]
  exact Nat.min_le_left _ _

/-- Claim C9, witnessed at the sample dataset: the no-argument call keeps the
city column's two entries, within the default `top_k`. -/
theorem claim_C9_witness :
    ("city", [(Val.str "A", 2), (Val.str "B", 1)]) ∈ top_categories sampleDs ∧
    [(Val.str "A", 2), (Val.str "B", 1)].length ≤ defaultTopK :=
  ⟨by decide, claim_C9.2.2.1 sampleDs "city" [(Val.str "A", 2), (Val.str "B", 1)]
    (by decide)⟩

/-- Claim C10: in the `report` command, the value of the `top_k_categories`
option has no effect on any computed analysis result: two runs on the same
dataset differing only in `top_k_categories` compute identical summaries,
missing tables, correlation matrices, quality flags, saved top-categories
tables and problematic-column lists, because the option is never passed to
`top_categories` and appears only in the narrative report text. -/
theorem claim_C10 (ds : Dataset) (mh k₁ k₂ : Nat) (ms : ℚ) :
    reportComputations ds ⟨mh, k₁, ms⟩ = reportComputations ds ⟨mh, k₂, ms⟩ := rfl

/-- Claim C3: for every dataset, the matrix returned by `correlation_matrix`
is symmetric, has exactly 1.0 on the diagonal for every numeric column with
at least 2 non-missing values, and is empty (zero rows and columns) whenever
the dataset has fewer than 2 numeric columns. -/
theorem claim_C3 (ds : Dataset) :
    (∀ i j, (correlation_matrix ds).cell i j = (correlation_matrix ds).cell j i) ∧
    ((numericCols ds).length < 2 →
      (correlation_matrix ds).names = [] ∧ (correlation_matrix ds).entries = []) ∧
    (∀ i, 2 ≤ (numericCols ds).length → i < (numericCols ds).length →
      2 ≤ nonNullCount ((numericCols ds).getD i emptyCol) →
      (correlation_matrix ds).cell i i = some 1) := by
  refine ⟨?_, ?_, ?_⟩
  · intro i j
    by_cases h2 : 2 ≤ (numericCols ds).length
    · rw [correlation_matrix_cell ds h2, correlation_matrix_cell ds h2,
        corrCell_symm (numericCols ds) i j]
      by_cases hij : i < (numericCols ds).length ∧ j < (numericCols ds).length
      · rw [if_pos hij, if_pos ⟨hij.2, hij.1⟩]
      · rw [if_neg hij, if_neg fun hh => hij ⟨hh.2, hh.1⟩]
    · have hempty : correlation_matrix ds = ⟨[], []⟩ := by
        unfold correlation_matrix
        rw [if_pos (Nat.lt_of_not_le h2)]
      rw [hempty]
      rfl
  · intro hlt
    unfold correlation_matrix
    rw [if_pos hlt]
    exact ⟨rfl, rfl⟩
  · intro i h2 hi hnn
    rw [correlation_matrix_cell ds h2, if_pos ⟨hi, hi⟩]
    unfold corrCell
    rw [if_pos rfl, if_pos hnn]

/-- Claim C3, witnessed at the sample dataset: two numeric columns, and the
`age` column (3 non-missing values) carries 1.0 on the diagonal. -/
theorem claim_C3_witness :
    (correlation_matrix sampleDs).cell 0 0 = some 1 :=
  (claim_C3 sampleDs).2.2 0 (by decide) (by decide) (by decide)

/-- Claim C7: for every dataset and parameters, `top_categories` processes
only non-numeric columns — the first `max_columns` of them in dataset column
order — and per processed column returns distinct non-missing values with
their occurrence counts, sorted by count descending with ties broken by
first-occurrence order in the source column, truncated to at most `top_k`
entries; missing values are never counted. -/
theorem claim_C7 (ds : Dataset) (mc k : Nat) :
    ((top_categories ds mc k).map Prod.fst =
      ((ds.cols.filter fun c => c.dtype == Dtype.nonNumeric).take mc).map Col.name) ∧
    (∀ p ∈ top_categories ds mc k, ∃ c, c ∈ ds.cols ∧ c.dtype = Dtype.nonNumeric ∧
      c.name = p.1 ∧ p.2.length ≤ k ∧
      (∀ e ∈ p.2, e.2 = c.cells.count (some e.1) ∧ 0 < e.2) ∧
      p.2.Pairwise (fun a b => b.2 ≤ a.2 ∧
        (a.2 = b.2 → firstIdx c.cells a.1 ≤ firstIdx c.cells b.1)) ∧
      (p.2.map Prod.fst).Nodup ∧
      (distinctCount c ≤ k → ∀ v : Val, v ∈ p.2.map Prod.fst ↔ some v ∈ c.cells)) := by
  constructor
  · unfold top_categories
    rw [List.map_map]
    rfl
  · intro p hp
    obtain ⟨c, hcmem, rfl⟩ := List.mem_map.mp hp
    have hcfilter : c ∈ ds.cols.filter fun c => c.dtype == Dtype.nonNumeric :=
      (List.take_sublist _ _).subset hcmem
    obtain ⟨hcols, hdt⟩ := List.mem_filter.mp hcfilter
    have hperm : (sortedCats c).Perm (catCounts c) :=
      List.perm_insertionSort (catRel c.cells) (catCounts c)
    have hsub : ((sortedCats c).take k).Sublist (sortedCats c) := List.take_sublist _ _
    refine ⟨c, hcols, (beq_nonNumeric_iff c.dtype).mp hdt, rfl, ?_, ?_, ?_, ?_, ?_⟩
    · rw [List.length_take]
      exact Nat.min_le_left _ _
    · intro e he
      have hcc : e ∈ catCounts c := hperm.mem_iff.mp (hsub.subset he)
      obtain ⟨hv, hcount⟩ := mem_catCounts c hcc
      have hpv : e.1 ∈ presentVals c := ((mem_dedupFO e.1 (presentVals c) []).mp hv).1
      constructor
      · rw [hcount]
        exact count_filterMap_id c.cells e.1
      · rw [hcount]
        exact List.count_pos_iff.mpr hpv
    · exact (List.Pairwise.sublist hsub
        (List.sorted_insertionSort (catRel c.cells) (catCounts c))).imp
        (fun hab => by
          rcases hab with h | ⟨h, h'⟩
          · exact ⟨Nat.le_of_lt h, fun heq => absurd (heq ▸ h) (lt_irrefl _)⟩
          · exact ⟨Nat.le_of_eq h.symm, fun _ => h'⟩)
    · have hnodup : ((sortedCats c).map Prod.fst).Nodup :=
        (hperm.map Prod.fst).nodup_iff.mpr
          (catCounts_map_fst c ▸ nodup_dedupFO (presentVals c) [])
      exact List.Nodup.sublist (hsub.map Prod.fst) hnodup
    · intro hk v
      have hlen : (sortedCats c).length ≤ k := by
        rw [hperm.length_eq]
        have : (catCounts c).length = distinctCount c := by
          simp [catCounts, distinctCount]
        omega
      show v ∈ ((sortedCats c).take k).map Prod.fst ↔ some v ∈ c.cells
      rw [List.take_of_length_le hlen]
      rw [(hperm.map Prod.fst).mem_iff, catCounts_map_fst]
      unfold distinctVals
      rw [mem_dedupFO v (presentVals c) []]
      simp only [List.not_mem_nil, not_false_iff, and_true]
      exact mem_filterMap_id_iff c.cells v

/-- Claim C7, witnessed at the sample dataset with `max_columns = 5`,
`top_k = 2`: the one processed column is `city`. -/
theorem claim_C7_witness :
    (top_categories sampleDs 5 2).map Prod.fst = ["city"] :=
  (claim_C7 sampleDs 5 2).1.trans (by decide)

end EdaCli
